import Mathlib

/-!
Verification of the Math Forwarding Shim
(src/Sources/_MediaProcessingShims/include/_MediaProcessingShims.h).

The repository's only source file is a C header with two inline forwarding
functions:

  float  libm_cosf(float x)  { return __builtin_cosf(x); }
  double libm_cos(double x)  { return __builtin_cos(x); }

The backing cosine implementations (__builtin_cosf / __builtin_cos, i.e. the
host platform's math library) are not part of the repository, so they are
modelled from the spec.  Floating-point values are embedded as an idealized
type with NaN, signed infinities and signed finite values whose magnitude is
an exact rational.
-/

namespace MediaProcessing

/-- An idealized IEEE-754-style floating-point value: NaN, a signed infinity,
or a signed finite value (sign bit plus rational magnitude, so that positive
and negative zero are distinct values with equal magnitude). -/
inductive Fp where
  | nan : Fp
  | inf (negative : Bool) : Fp
  | finite (negative : Bool) (mag : ℚ) : Fp
deriving DecidableEq

/-- The rational value of a finite floating-point datum (0 on NaN/infinity). -/
def Fp.val : Fp → ℚ
  | .finite s m => if s then -m else m
  | _ => 0

/-- Whether a floating-point datum is finite. -/
def Fp.isFinite : Fp → Bool
  | .finite _ _ => true
  | _ => false

/-- Floating-point negation: flips the sign bit, maps NaN to NaN. -/
def Fp.neg : Fp → Fp
  | .nan => .nan
  | .inf s => .inf (!s)
  | .finite s m => .finite (!s) m

/-- The finite floating-point datum holding a given rational value. -/
def Fp.ofQ (q : ℚ) : Fp := if q < 0 then .finite true (-q) else .finite false q

/-- The value of the double nearest to π, as an exact rational. -/
def pi64 : ℚ := 884279719003555 / 2 ^ 48

/-- The value of the double nearest to 2π, as an exact rational
(doubling a binary float is exact, so this is twice `pi64`). -/
def twoPi64 : ℚ := 884279719003555 / 2 ^ 47

/-- Range reduction to the nearest period: subtracts the multiple of 2π
closest to the argument, landing in [-π, π). -/
def reduce (q : ℚ) : ℚ := q - twoPi64 * (⌊q / twoPi64 + 1 / 2⌋ : ℤ)

/-- Degree-20 Maclaurin polynomial of cosine, as a polynomial in the square
`s = x ^ 2` of the reduced argument (so it is even by construction); on
[-π, π] its error against real cosine is below 8e-11. -/
def cosTaylor (s : ℚ) : ℚ :=
  1 - s / 2 + s ^ 2 / 24 - s ^ 3 / 720 + s ^ 4 / 40320 - s ^ 5 / 3628800
    + s ^ 6 / 479001600 - s ^ 7 / 87178291200 + s ^ 8 / 20922789888000
    - s ^ 9 / 6402373705728000 + s ^ 10 / 2432902008176640000

/-- Rational-valued cosine model: range-reduce, evaluate the even Maclaurin
polynomial, and clamp to [-1, 1] (the spec requires results in [-1, 1]). -/
def cosQ (q : ℚ) : ℚ := max (-1) (min 1 (cosTaylor (reduce q ^ 2)))

/-- Modelled from the spec: `__builtin_cosf`, the host platform's
single-precision cosine, is not part of the repository.  Per the spec it
follows standard IEEE-754 cosine semantics: NaN input produces NaN output,
infinities produce NaN, and finite inputs produce the cosine of the input,
a value in [-1, 1]. -/
def builtin_cosf : Fp → Fp
  | .nan => .nan
  | .inf _ => .nan
  | .finite s m => .ofQ (cosQ (if s then -m else m))

/-- Modelled from the spec: `__builtin_cos`, the host platform's
double-precision cosine, is not part of the repository.  Per the spec it
follows standard IEEE-754 cosine semantics: NaN input produces NaN output,
infinities produce NaN, and finite inputs produce the cosine of the input,
a value in [-1, 1]. -/
def builtin_cos : Fp → Fp
  | .nan => .nan
  | .inf _ => .nan
  | .finite s m => .ofQ (cosQ (if s then -m else m))

/-- The shim `libm_cosf` from the source header: returns `__builtin_cosf(x)`. -/
def libm_cosf (x : Fp) : Fp := builtin_cosf x

/-- The shim `libm_cos` from the source header: returns `__builtin_cos(x)`. -/
def libm_cos (x : Fp) : Fp := builtin_cos x

/-- State-passing reading of a call to `libm_cosf`: the source body reads no
global state and performs no writes, so the environment passes through
untouched and the result depends on the argument alone. -/
def libm_cosf_call (E : Type) (env : E) (x : Fp) : E × Fp := (env, builtin_cosf x)

/-- State-passing reading of a call to `libm_cos`: the source body reads no
global state and performs no writes, so the environment passes through
untouched and the result depends on the argument alone. -/
def libm_cos_call (E : Type) (env : E) (x : Fp) : E × Fp := (env, builtin_cos x)

lemma twoPi64_ne_zero : (twoPi64 : ℚ) ≠ 0 := by norm_num [twoPi64]

lemma floor_one_sub_of_not_int (z : ℚ) (hz : ∀ n : ℤ, z ≠ (n : ℚ)) :
    ⌊1 - z⌋ = -⌊z⌋ := by
  have h1 : ((⌊z⌋ : ℤ) : ℚ) < z :=
    lt_of_le_of_ne (Int.floor_le z) (fun h => hz ⌊z⌋ h.symm)
  have h2 : z < (⌊z⌋ : ℚ) + 1 := Int.lt_floor_add_one z
  rw [Int.floor_eq_iff]
  constructor
  · push_cast
    linarith
  · push_cast
    linarith

lemma reduce_neg_sq (q : ℚ) : reduce (-q) ^ 2 = reduce q ^ 2 := by
  by_cases h : ∃ n : ℤ, q / twoPi64 + 1 / 2 = (n : ℚ)
  · obtain ⟨n, hn⟩ := h
    have hdiv : q / twoPi64 = (n : ℚ) - 1 / 2 := by linarith
    have hq : q = ((n : ℚ) - 1 / 2) * twoPi64 := (div_eq_iff twoPi64_ne_zero).mp hdiv
    have hn2 : -q / twoPi64 + 1 / 2 = ((1 - n : ℤ) : ℚ) := by
      rw [neg_div, hdiv]
      push_cast
      ring
    have h1 : reduce q = -(twoPi64 / 2) := by
      unfold reduce
      rw [hn, Int.floor_intCast, hq]
      ring
    have h2 : reduce (-q) = -(twoPi64 / 2) := by
      unfold reduce
      rw [hn2, Int.floor_intCast, hq]
      push_cast
      ring
    rw [h1, h2]
  · push_neg at h
    have e : -q / twoPi64 + 1 / 2 = 1 - (q / twoPi64 + 1 / 2) := by ring
    have h2 : reduce (-q) = -reduce q := by
      unfold reduce
      rw [e, floor_one_sub_of_not_int _ h]
      push_cast
      ring
    rw [h2, neg_sq]

lemma reduce_add_twoPi (q : ℚ) : reduce (q + twoPi64) = reduce q := by
  have e : (q + twoPi64) / twoPi64 + 1 / 2 = (q / twoPi64 + 1 / 2) + 1 := by
    rw [add_div, div_self twoPi64_ne_zero]
    ring
  unfold reduce
  rw [e, Int.floor_add_one]
  push_cast
  ring

lemma cosQ_even (q : ℚ) : cosQ (-q) = cosQ q := by
  unfold cosQ
  rw [reduce_neg_sq]

lemma cosQ_add_twoPi (q : ℚ) : cosQ (q + twoPi64) = cosQ q := by
  unfold cosQ
  rw [reduce_add_twoPi]

lemma neg_one_le_cosQ (q : ℚ) : -1 ≤ cosQ q := le_max_left _ _

lemma cosQ_le_one (q : ℚ) : cosQ q ≤ 1 :=
  max_le (by norm_num) (min_le_left _ _)

lemma cos_finite_false (m : ℚ) : libm_cos (Fp.finite false m) = Fp.ofQ (cosQ m) := rfl

lemma cosf_finite_false (m : ℚ) : libm_cosf (Fp.finite false m) = Fp.ofQ (cosQ m) := rfl

lemma cos_finite_true (m : ℚ) : libm_cos (Fp.finite true m) = Fp.ofQ (cosQ (-m)) := rfl

lemma cosf_finite_true (m : ℚ) : libm_cosf (Fp.finite true m) = Fp.ofQ (cosQ (-m)) := rfl

lemma ofQ_one : Fp.ofQ 1 = Fp.finite false 1 := by
  unfold Fp.ofQ
  norm_num

lemma cosQ_zero : cosQ 0 = 1 := by
  have h0 : reduce 0 = 0 := by
    unfold reduce
    have e : (0 : ℚ) / twoPi64 + 1 / 2 = 1 / 2 := by
      rw [zero_div]
      ring
    have hf : ⌊(1 / 2 : ℚ)⌋ = 0 := by
      rw [Int.floor_eq_zero_iff, Set.mem_Ico]
      constructor <;> norm_num
    rw [e, hf]
    norm_num
  have ht : cosTaylor (reduce 0 ^ 2) = 1 := by
    rw [h0]
    norm_num [cosTaylor]
  unfold cosQ
  rw [ht, min_self, max_eq_right (by norm_num : (-1 : ℚ) ≤ 1)]

lemma val_ofQ (q : ℚ) : (Fp.ofQ q).val = q := by
  unfold Fp.ofQ
  split
  · simp [Fp.val]
  · simp [Fp.val]

lemma cos_finite_val (s : Bool) (m : ℚ) :
    (libm_cos (Fp.finite s m)).val = cosQ (if s then -m else m) := by
  unfold libm_cos builtin_cos
  exact val_ofQ _

lemma cosf_finite_val (s : Bool) (m : ℚ) :
    (libm_cosf (Fp.finite s m)).val = cosQ (if s then -m else m) := by
  unfold libm_cosf builtin_cosf
  exact val_ofQ _

lemma cos_ofQ_val (q : ℚ) : (libm_cos (Fp.ofQ q)).val = cosQ q := by
  unfold Fp.ofQ
  split
  · rw [cos_finite_val]
    simp
  · rw [cos_finite_val]
    simp

/-- Claim C1: for every finite input, the single-precision cosine shim and
the double-precision cosine shim return a value in the closed interval
[-1, 1]. -/
theorem cosine_in_unit_interval (s : Bool) (m : ℚ) :
    (-1 ≤ (libm_cosf (Fp.finite s m)).val ∧ (libm_cosf (Fp.finite s m)).val ≤ 1) ∧
    (-1 ≤ (libm_cos (Fp.finite s m)).val ∧ (libm_cos (Fp.finite s m)).val ≤ 1) := by
  rw [cosf_finite_val, cos_finite_val]
  exact ⟨⟨neg_one_le_cosQ _, cosQ_le_one _⟩, ⟨neg_one_le_cosQ _, cosQ_le_one _⟩⟩

/-- Claim C2: applied to positive zero, both shims return exactly the
floating-point value 1 (same constructor, same sign, same magnitude). -/
theorem cosine_at_zero_exact :
    libm_cosf (Fp.finite false 0) = Fp.finite false 1 ∧
    libm_cos (Fp.finite false 0) = Fp.finite false 1 := by
  rw [cosf_finite_false, cos_finite_false, cosQ_zero, ofQ_one]
  exact ⟨rfl, rfl⟩

/-- Claim C3: a NaN input produces a NaN output, and either infinity
produces a NaN output, in both precisions. -/
theorem cosine_nan_inf_to_nan (b : Bool) :
    libm_cosf Fp.nan = Fp.nan ∧ libm_cos Fp.nan = Fp.nan ∧
    libm_cosf (Fp.inf b) = Fp.nan ∧ libm_cos (Fp.inf b) = Fp.nan := by
  cases b <;> exact ⟨rfl, rfl, rfl, rfl⟩

/-- Claim C4: both shims are total over the whole floating-point domain,
NaN and infinities included: every input yields a result value (the
embedding is a total function with no failure outcome). -/
theorem cosine_total (x : Fp) :
    (∃ y : Fp, libm_cosf x = y) ∧ (∃ y : Fp, libm_cos x = y) :=
  ⟨⟨libm_cosf x, rfl⟩, ⟨libm_cos x, rfl⟩⟩

/-- Claim C5: both shims are pure and deterministic: in the state-passing
reading, the result of a call is the same in any two environments (it
depends only on the argument) and the environment is returned unchanged
(no side effects). -/
theorem cosine_pure_stateless (E : Type) (e₁ e₂ : E) (x : Fp) :
    (libm_cosf_call E e₁ x).2 = (libm_cosf_call E e₂ x).2 ∧
    (libm_cosf_call E e₁ x).1 = e₁ ∧
    (libm_cos_call E e₁ x).2 = (libm_cos_call E e₂ x).2 ∧
    (libm_cos_call E e₁ x).1 = e₁ :=
  ⟨rfl, rfl, rfl, rfl⟩

/-- Claim C6: each shim forwards its argument to the platform builtin of the
matching precision and returns that builtin's result bit-for-bit, adding no
transformation of its own. -/
theorem shim_forwards_to_builtin (x : Fp) :
    libm_cosf x = builtin_cosf x ∧ libm_cos x = builtin_cos x :=
  ⟨rfl, rfl⟩

/-- Claim C7: evenness: for every finite input, the double-precision cosine
of the negated input agrees with the cosine of the input within 1e-9
(in the model they are equal exactly). -/
theorem cosine_even (s : Bool) (m : ℚ) :
    |(libm_cos (Fp.neg (Fp.finite s m))).val - (libm_cos (Fp.finite s m)).val|
      ≤ 1 / 1000000000 := by
  have h : (libm_cos (Fp.neg (Fp.finite s m))).val = (libm_cos (Fp.finite s m)).val := by
    cases s <;> simp [Fp.neg, cos_finite_val, cosQ_even]
  rw [h, sub_self, abs_zero]
  norm_num

/-- Claim C8: periodicity: for every finite input, the double-precision
cosine at the input shifted by 2π agrees with the cosine at the input
within 1e-9 (in the model they are equal exactly). -/
theorem cosine_periodic (s : Bool) (m : ℚ) :
    |(libm_cos (Fp.ofQ ((Fp.finite s m).val + twoPi64))).val
        - (libm_cos (Fp.finite s m)).val| ≤ 1 / 1000000000 := by
  have h : (libm_cos (Fp.ofQ ((Fp.finite s m).val + twoPi64))).val
      = (libm_cos (Fp.finite s m)).val := by
    rw [cos_ofQ_val, cosQ_add_twoPi, cos_finite_val]
    rfl
  rw [h, sub_self, abs_zero]
  norm_num

/-- Claim C9: the double-precision cosine of the double nearest to π is
within 1e-9 of -1. -/
theorem cosine_at_pi :
    |(libm_cos (Fp.ofQ pi64)).val + 1| ≤ 1 / 1000000000 := by
  have h1 : reduce pi64 = -pi64 := by
    unfold reduce
    have e : pi64 / twoPi64 + 1 / 2 = ((1 : ℤ) : ℚ) := by
      push_cast
      norm_num [pi64, twoPi64]
    rw [e, Int.floor_intCast]
    push_cast
    norm_num [pi64, twoPi64]
  have hlo : (-1 : ℚ) ≤ cosTaylor (pi64 ^ 2) := by
    norm_num [cosTaylor, pi64]
  have hhi : cosTaylor (pi64 ^ 2) ≤ 1 := by
    norm_num [cosTaylor, pi64]
  have hclamp : cosQ pi64 = cosTaylor (pi64 ^ 2) := by
    unfold cosQ
    rw [h1, neg_sq, min_eq_right hhi, max_eq_right hlo]
  rw [cos_ofQ_val, hclamp, abs_le]
  constructor <;> norm_num [cosTaylor, pi64]

/-- Claim C10: negative zero: both shims return exactly the floating-point
value 1 on negative zero, the same exact result as on positive zero. -/
theorem cosine_neg_zero :
    libm_cosf (Fp.finite true 0) = Fp.finite false 1 ∧
    libm_cos (Fp.finite true 0) = Fp.finite false 1 ∧
    libm_cosf (Fp.finite true 0) = libm_cosf (Fp.finite false 0) ∧
    libm_cos (Fp.finite true 0) = libm_cos (Fp.finite false 0) := by
  rw [cosf_finite_true, cos_finite_true, cosf_finite_false, cos_finite_false,
    neg_zero, cosQ_zero, ofQ_one]
  exact ⟨rfl, rfl, rfl, rfl⟩

end MediaProcessing
